import Mathlib

/-!
Verification of the compile-time constant (literal/param) engine of the
Chapel front end, as implemented in `src/frontend/lib/types/Param.cpp`.

Strings are embedded as `List Char`; the C functions take `(const char*, size_t)`
with the length equal to the string's length, so the embedded functions take the
list alone.  An error path of the literal parsers (which in C returns `0` and
sets the out-parameter `err`) is embedded as `Except.error msg`; the success
path as `Except.ok value`.  Machine integers are `Nat`/`Int` with explicit
`% 2 ^ w` wrapping.
-/

namespace Chapel

/-- Model of `stringContainsZeroBytes(str, len)`: whether any byte among the
first `len` is NUL. -/
def containsZeroBytes (s : List Char) : Bool :=
  s.any (fun c => c.toNat == 0)

/-- Model of the leading-zero strip loop
`while (str[startPos] == '0' && startPos < len-1) startPos++;`
applied to the suffix of the string starting at the initial position:
zeros are dropped while at least one further character remains. -/
def stripZeros : List Char → List Char
  | [] => []
  | c :: rest => if c = '0' ∧ rest ≠ [] then stripZeros rest else c :: rest

/-- Model of the sign strip loop of `decStr2int64`
`while (str[startPos] == '-' && startPos < len-1) { negate = !negate; startPos++; }`:
returns the remaining suffix and the accumulated `negate` flag. -/
def stripSign : List Char → List Char × Bool
  | [] => ([], false)
  | c :: rest =>
    if c = '-' ∧ rest ≠ [] then
      let r := stripSign rest
      (r.1, !r.2)
    else (c :: rest, false)

/-- The character test `'0' <= c && c <= '9'` of the decimal parsers. -/
def isDecDigitCh (c : Char) : Bool :=
  decide ('0' ≤ c ∧ c ≤ '9')

/-- The character test of the octal parser as written in the source:
`'0' <= str[i] && str[i] <= '8'` (note the upper bound `'8'`). -/
def octCharCheckSrc (c : Char) : Bool :=
  decide ('0' ≤ c ∧ c ≤ '8')

/-- An actual octal digit, `'0'..'7'`: what `sscanf`'s `%o` conversion consumes. -/
def isOctDigitCh (c : Char) : Bool :=
  decide ('0' ≤ c ∧ c ≤ '7')

/-- The character test of the hexadecimal parser:
`('0' <= c && c <= '9') || ('a' <= c && c <= 'f') || ('A' <= c && c <= 'F')`. -/
def isHexDigitCh (c : Char) : Bool :=
  decide (('0' ≤ c ∧ c ≤ '9') ∨ ('a' ≤ c ∧ c ≤ 'f') ∨ ('A' ≤ c ∧ c ≤ 'F'))

/-- Numeric value of a decimal or octal digit character. -/
def decCharVal (c : Char) : Nat := c.toNat - 48

/-- Numeric value of a hexadecimal digit character. -/
def hexCharVal (c : Char) : Nat :=
  if c.toNat ≥ 97 then c.toNat - 87
  else if c.toNat ≥ 65 then c.toNat - 55
  else c.toNat - 48

/-- Value of a decimal digit string, most significant digit first. -/
def decValue (ds : List Char) : Nat :=
  ds.foldl (fun a c => a * 10 + decCharVal c) 0

/-- Value of an octal digit string, most significant digit first. -/
def octValue (ds : List Char) : Nat :=
  ds.foldl (fun a c => a * 8 + decCharVal c) 0

/-- Value of a hexadecimal digit string, most significant digit first. -/
def hexValue (ds : List Char) : Nat :=
  ds.foldl (fun a c => a * 16 + hexCharVal c) 0

/-- Model of `sscanf(s, "%" SCNo64, &val)` on the strings reachable in
`octStr2uint64` (no leading whitespace or sign): the maximal prefix of octal
digits is converted; an empty prefix is a matching failure (`none`), which the
caller reports as a conversion error.  The value is stored in a `uint64_t`. -/
def sscanfOct (s : List Char) : Option Nat :=
  let ds := s.takeWhile isOctDigitCh
  if ds.isEmpty then none else some (octValue ds % 2 ^ 64)

/-- Model of `sscanf(s, "%" SCNx64, &val)` on the strings reachable in
`hexStr2uint64`: the maximal prefix of hexadecimal digits is converted; an
empty prefix is a matching failure (`none`). -/
def sscanfHex (s : List Char) : Option Nat :=
  let ds := s.takeWhile isHexDigitCh
  if ds.isEmpty then none else some (hexValue ds % 2 ^ 64)

/-- The message `"Integer literal overflow: '" + str + "' is too big for a
64-bit unsigned integer"` built by every integer parser's overflow path. -/
def overflowMsg (str : List Char) : String :=
  "Integer literal overflow: '" ++ String.mk str ++
    "' is too big for a 64-bit unsigned integer"

/-- The message `"illegal character '" + c + "' in " + what + " literal"`. -/
def illegalCharMsg (c : Char) (what : String) : String :=
  "illegal character '" ++ String.mk [c] ++ "' in " ++ what ++ " literal"

/-- Embedding of `Param::binStr2uint64` (Param.cpp:491-532).  The digit loop
shifts the `uint64_t` accumulator left by one and adds the binary digit, with
the `uint64_t` arithmetic wrapping modulo `2 ^ 64`; a character other than
`'0'`/`'1'` stops it with the illegal-character error. -/
def binDigitLoop : List Char → Nat → Except String Nat
  | [], val => Except.ok val
  | c :: rest, val =>
    let v2 := val * 2 % 2 ^ 64
    if c = '0' then binDigitLoop rest v2
    else if c = '1' then binDigitLoop rest ((v2 + 1) % 2 ^ 64)
    else Except.error (illegalCharMsg c "binary")

def binStr2uint64 (str : List Char) : Except String Nat :=
  if ¬ (str.getD 0 ' ' = '0' ∧ (str.getD 1 ' ' = 'b' ∨ str.getD 1 ' ' = 'B')) ∨
      containsZeroBytes str then
    Except.error "Invalid binary string"
  else
    let digits := stripZeros (str.drop 2)
    if digits.length > 64 then
      Except.error (overflowMsg str)
    else
      binDigitLoop digits 0

/-- Embedding of `Param::octStr2uint64` (Param.cpp:534-575): prefix/NUL
precondition check, leading-zero strip, 22-digit length check, the
character-set loop exactly as written in the source (upper bound `'8'`),
then `sscanf` with `%SCNo64`. -/
def octStr2uint64 (str : List Char) : Except String Nat :=
  if ¬ (str.getD 0 ' ' = '0' ∧ (str.getD 1 ' ' = 'o' ∨ str.getD 1 ' ' = 'O')) ∨
      containsZeroBytes str then
    Except.error "Invalid octal string"
  else
    let digits := stripZeros (str.drop 2)
    if digits.length > 22 ∨ (digits.length = 22 ∧ digits.getD 0 ' ' ≠ '1') then
      Except.error (overflowMsg str)
    else
      match digits.find? (fun c => ¬ octCharCheckSrc c) with
      | some c => Except.error (illegalCharMsg c "octal")
      | none =>
        match sscanfOct digits with
        | none => Except.error "error converting octal literal"
        | some v => Except.ok v

/-- Embedding of `Param::hexStr2uint64` (Param.cpp:685-729).  Note that the
final `sscanf` starts at `str+2`, before the stripped zeros. -/
def hexStr2uint64 (str : List Char) : Except String Nat :=
  if ¬ (str.getD 0 ' ' = '0' ∧ (str.getD 1 ' ' = 'x' ∨ str.getD 1 ' ' = 'X')) ∨
      containsZeroBytes str then
    Except.error "Invalid hexadecimal string"
  else
    let digits := stripZeros (str.drop 2)
    if digits.length > 16 then
      Except.error (overflowMsg str)
    else
      match digits.find? (fun c => ¬ isHexDigitCh c) with
      | some c => Except.error (illegalCharMsg c "hexadecimal")
      | none =>
        match sscanfHex (str.drop 2) with
        | none => Except.error "error converting hexadecimal literal"
        | some v => Except.ok v

/-- Little-endian decimal digits of `n`, computed with explicit fuel so that
the definition is structural (and hence evaluates inside the kernel). -/
def digitsLEAux : Nat → Nat → List Nat
  | 0, _ => []
  | fuel + 1, n => if n = 0 then [] else n % 10 :: digitsLEAux fuel (n / 10)

def digitsLE (n : Nat) : List Nat := digitsLEAux n n

/-- Decimal digit character for a digit value. -/
def digitCh (d : Nat) : Char := Char.ofNat (48 + d)

/-- Model of `snprintf(buf, len+1, "%" SCNu64, val)` for a `uint64_t` value:
the canonical decimal rendering (`"0"` for zero).  `SCNu64` expands to the
unsigned decimal conversion, so the stored 64-bit pattern is printed as an
unsigned number. -/
def uintRepr (n : Nat) : List Char :=
  if n = 0 then ['0'] else ((digitsLE n).reverse).map digitCh

/-- Model of `sscanf(s, "%" SCNu64, &val)` on an all-digit string: glibc
converts through `strtoull`, which saturates at `UINT64_MAX` on overflow while
still reporting a successful conversion.  The 64-bit pattern is stored into
the (mis-declared `int64_t`) variable. -/
def sscanfU64 (m : Nat) : Nat := min m (2 ^ 64 - 1)

/-- Model of `sscanf(s, "%" SCNd64, &val)` on an all-digit (sign-free) string:
glibc converts through `strtoll`, which saturates at `INT64_MAX` on overflow
while still reporting a successful conversion. -/
def sscanfD64 (m : Nat) : Int := min (m : Int) (2 ^ 63 - 1)

/-- Embedding of `Param::decStr2uint64` (Param.cpp:577-623): precondition
check, leading-zero strip, digit-set check, `sscanf` with `%SCNu64`, then the
round-trip overflow check comparing the re-rendered value against the
zero-stripped input. -/
def decStr2uint64 (str : List Char) : Except String Nat :=
  if (str.getD 0 ' ').toNat = 0 ∨ containsZeroBytes str then
    Except.error "Invalid decimal string"
  else
    let digits := stripZeros str
    match digits.find? (fun c => ¬ isDecDigitCh c) with
    | some c => Except.error (illegalCharMsg c "decimal")
    | none =>
      let val := sscanfU64 (decValue digits)
      if uintRepr val ≠ digits then
        Except.error (overflowMsg str)
      else
        Except.ok val

/-- Embedding of `Param::decStr2int64` (Param.cpp:625-680): precondition
check, the `-`-stripping loop toggling `negate`, leading-zero strip, digit-set
check, `sscanf` with `%SCNd64`, the round-trip overflow check (which renders
the parsed `int64_t` with the unsigned conversion `%SCNu64`, i.e. as its
64-bit pattern), and finally negation when `negate` is set. -/
def decStr2int64 (str : List Char) : Except String Int :=
  if (str.getD 0 ' ').toNat = 0 ∨ containsZeroBytes str then
    Except.error "Invalid decimal string"
  else
    let rest := stripSign str
    let digits := stripZeros rest.1
    match digits.find? (fun c => ¬ isDecDigitCh c) with
    | some c => Except.error (illegalCharMsg c "decimal")
    | none =>
      let val := sscanfD64 (decValue digits)
      if uintRepr (Int.toNat (val % 2 ^ 64)) ≠ digits then
        Except.error (overflowMsg str)
      else
        Except.ok (if rest.2 then -val else val)

/-!
The Param / Immediate / fold model.

Floating-point payloads (C `double` and `float`) are kept abstract: the
development is parameterized over a `FloatModel` carrying the two payload
types, the narrowing/widening conversions used by `paramToImmediate` /
`immediateToParam`, and the defined equality used by `completeMatch`.
Everything the integer/bool/string paths do is exact.
-/

/-- Abstract model of the C `float`/`double` payloads and of the conversions
the engine applies to them.  `beq64` is the defined equality on doubles used
by `completeMatch` (spec section 4.4), required to be reflexive. -/
structure FloatModel where
  F32 : Type
  F64 : Type
  toF32 : F64 → F32
  toF64 : F32 → F64
  zero64 : F64
  beq64 : F64 → F64 → Bool
  beq64_refl : ∀ x, beq64 x x = true

/-- A concrete instantiation of `FloatModel` (used to evaluate the model at
concrete inputs; the float payloads are represented by integers and the
narrowing conversion is lossless). -/
def natFloatModel : FloatModel where
  F32 := Int
  F64 := Int
  toF32 := id
  toF64 := id
  zero64 := 0
  beq64 := fun a b => a == b
  beq64_refl := by simp

/-- The `paramtags::ParamTag` enumeration (param-classes-list.h order). -/
inductive ParamTag where
  | BoolParam | ComplexParam | EnumParam | IntParam
  | NoneParam | RealParam | StringParam | UintParam
deriving DecidableEq

/-- The concrete `Param` subclasses with their payloads: `BoolParam(bool)`,
`ComplexParam(ComplexDouble)`, `EnumParam(ID)`, `IntParam(int64_t)`,
`NoneParam`, `RealParam(double)`, `StringParam(UniqueString)`,
`UintParam(uint64_t)`.  The `int64_t`/`uint64_t` payloads are `Int`/`Nat`
(the interned value, independent of any paired `Type`'s width). -/
inductive ParamV (M : FloatModel) where
  | BoolParam (v : Bool)
  | ComplexParam (re im : M.F64)
  | EnumParam (id : Nat)
  | IntParam (v : Int)
  | NoneParam
  | RealParam (v : M.F64)
  | StringParam (v : String)
  | UintParam (v : Nat)

def ParamV.tag {M : FloatModel} : ParamV M → ParamTag
  | .BoolParam _ => .BoolParam
  | .ComplexParam _ _ => .ComplexParam
  | .EnumParam _ => .EnumParam
  | .IntParam _ => .IntParam
  | .NoneParam => .NoneParam
  | .RealParam _ => .RealParam
  | .StringParam _ => .StringParam
  | .UintParam _ => .UintParam

/-- Model of `Param::completeMatch` (Param.cpp:49-58): tags must match and the
kind-specific `contentsMatchInner` must succeed.  The per-kind comparisons
(bit-exact for bool/int/uint, the defined floating equality, exact text
equality) follow spec section 4.4; `contentsMatchInner` itself is declared in
Param.h, outside the excerpted sources. -/
def completeMatch {M : FloatModel} : ParamV M → ParamV M → Bool
  | .BoolParam a, .BoolParam b => a == b
  | .ComplexParam ar ai, .ComplexParam br bi => M.beq64 ar br && M.beq64 ai bi
  | .EnumParam a, .EnumParam b => a == b
  | .IntParam a, .IntParam b => a == b
  | .NoneParam, .NoneParam => true
  | .RealParam a, .RealParam b => M.beq64 a b
  | .StringParam a, .StringParam b => a == b
  | .UintParam a, .UintParam b => a == b
  | _, _ => false

/-- The concrete `Type` subclasses the engine dispatches on, with their
bit widths: `BoolType`, `IntType(w)`, `UintType(w)`, `RealType(w)`,
`ImagType(w)`, `ComplexType(w)`, the three string-like types, `NothingType`,
and `OtherT` standing for every other `Type` subclass (on which
`guessParamTagFromType` asserts). -/
inductive Ty where
  | BoolT
  | IntT (w : Nat)
  | UintT (w : Nat)
  | RealT (w : Nat)
  | ImagT (w : Nat)
  | ComplexT (w : Nat)
  | StringT
  | BytesT
  | CStringT
  | NothingT
  | OtherT
deriving DecidableEq

/-- The `num_index` width selector of an integer `Immediate`
(`INT_SIZE_8/16/32/64`). -/
inductive IntSize where
  | sz8 | sz16 | sz32 | sz64
deriving DecidableEq

def IntSize.bits : IntSize → Nat
  | .sz8 => 8
  | .sz16 => 16
  | .sz32 => 32
  | .sz64 => 64

def IntSize.ofWidth : Nat → Option IntSize
  | 8 => some .sz8
  | 16 => some .sz16
  | 32 => some .sz32
  | 64 => some .sz64
  | _ => none

/-- The `string_kind` selector of a string `Immediate`. -/
inductive StringKind where
  | STRING_KIND_STRING | STRING_KIND_BYTES | STRING_KIND_C_STRING
deriving DecidableEq

/-- The `Immediate` tagged union (immediates/prim_data.h, outside the
excerpted sources but fully determined by its uses in Param.cpp and spec
section 3): one constructor per consistent (discriminant, width, payload)
combination.  Integer payloads are stored wrapped to their width by every
writer. -/
inductive Immediate (M : FloatModel) where
  | vbool (b : Bool)
  | vint (sz : IntSize) (v : Int)
  | vuint (sz : IntSize) (v : Nat)
  | vreal32 (v : M.F32)
  | vreal64 (v : M.F64)
  | vimag32 (v : M.F32)
  | vimag64 (v : M.F64)
  | vcomplex64 (re im : M.F32)
  | vcomplex128 (re im : M.F64)
  | vstring (k : StringKind) (s : String)

/-- Two's-complement wrap of an integer to `w` bits (the C cast from
`int64_t` to the narrower signed type). -/
def iwrap (w : Nat) (v : Int) : Int :=
  (v + 2 ^ (w - 1)) % 2 ^ w - 2 ^ (w - 1)

/-- Model of `guessParamTagFromType` (Param.cpp:121-146); `none` is the
`CHPL_ASSERT(false && "case not handled")` path. -/
def guessParamTagFromType : Ty → Option ParamTag
  | .BoolT => some .BoolParam
  | .ComplexT _ => some .ComplexParam
  | .IntT _ => some .IntParam
  | .UintT _ => some .UintParam
  | .RealT _ => some .RealParam
  | .ImagT _ => some .RealParam
  | .StringT => some .StringParam
  | .BytesT => some .StringParam
  | .CStringT => some .StringParam
  | .NothingT => some .NoneParam
  | .OtherT => none

/-- Embedding of `paramToImmediate(p, t)` (Param.cpp:152-305).  The tag is the
Param's own tag, or is guessed from the Type when `p` is null; each case then
builds the Immediate from the Param's payload (or the type's zero/empty
default), narrowing it to the width the Type prescribes.  `none` is any
`CHPL_ASSERT(false)` path (unhandled tag, mismatched type, unhandled width). -/
def paramToImmediate (M : FloatModel) (p : Option (ParamV M)) (t : Ty) :
    Option (Immediate M) :=
  match (match p with | some q => some q.tag | none => guessParamTagFromType t) with
  | none => none
  | some tag =>
    match tag with
    | .BoolParam =>
      some (.vbool (match p with | some (.BoolParam b) => b | _ => false))
    | .ComplexParam =>
      let v : M.F64 × M.F64 :=
        match p with | some (.ComplexParam re im) => (re, im) | _ => (M.zero64, M.zero64)
      match t with
      | .ComplexT 64 => some (.vcomplex64 (M.toF32 v.1) (M.toF32 v.2))
      | .ComplexT 128 => some (.vcomplex128 v.1 v.2)
      | _ => none
    | .EnumParam => none
    | .IntParam =>
      let v : Int := match p with | some (.IntParam v) => v | _ => 0
      match t with
      | .IntT 8 => some (.vint .sz8 (iwrap 8 v))
      | .IntT 16 => some (.vint .sz16 (iwrap 16 v))
      | .IntT 32 => some (.vint .sz32 (iwrap 32 v))
      | .IntT 64 => some (.vint .sz64 (iwrap 64 v))
      | _ => none
    | .NoneParam => some (.vbool false)
    | .RealParam =>
      let v : M.F64 := match p with | some (.RealParam v) => v | _ => M.zero64
      match t with
      | .RealT 32 => some (.vreal32 (M.toF32 v))
      | .RealT 64 => some (.vreal64 v)
      | .ImagT 32 => some (.vimag32 (M.toF32 v))
      | .ImagT 64 => some (.vimag64 v)
      | _ => none
    | .StringParam =>
      let s : String := match p with | some (.StringParam s) => s | _ => ""
      match t with
      | .StringT => some (.vstring .STRING_KIND_STRING s)
      | .BytesT => some (.vstring .STRING_KIND_BYTES s)
      | .CStringT => some (.vstring .STRING_KIND_C_STRING s)
      | _ => none
    | .UintParam =>
      let v : Nat := match p with | some (.UintParam v) => v | _ => 0
      match t with
      | .UintT 8 => some (.vuint .sz8 (v % 2 ^ 8))
      | .UintT 16 => some (.vuint .sz16 (v % 2 ^ 16))
      | .UintT 32 => some (.vuint .sz32 (v % 2 ^ 32))
      | .UintT 64 => some (.vuint .sz64 (v % 2 ^ 64))
      | _ => none

/-- Embedding of `immediateToParam(context, imm)` (Param.cpp:307-402): switch
on the discriminant and width selector, choosing the Param variant (holding
the payload, widened back to the stored 64-bit form where applicable) and the
concrete Type.  It is total over every discriminant the engine produces; the
`default: CHPL_ASSERT(false)` arms correspond to union states that the
`Immediate` inductive cannot represent.  The value held by the interned
instance returned by the per-kind getters is modelled directly. -/
def immediateToParam (M : FloatModel) : Immediate M → ParamV M × Ty
  | .vbool b => (.BoolParam b, .BoolT)
  | .vint sz v => (.IntParam v, .IntT sz.bits)
  | .vuint sz v => (.UintParam v, .UintT sz.bits)
  | .vreal32 f => (.RealParam (M.toF64 f), .RealT 32)
  | .vreal64 v => (.RealParam v, .RealT 64)
  | .vimag32 f => (.RealParam (M.toF64 f), .ImagT 32)
  | .vimag64 v => (.RealParam v, .ImagT 64)
  | .vcomplex64 re im => (.ComplexParam (M.toF64 re) (M.toF64 im), .ComplexT 64)
  | .vcomplex128 re im => (.ComplexParam re im, .ComplexT 128)
  | .vstring .STRING_KIND_STRING s => (.StringParam s, .StringT)
  | .vstring .STRING_KIND_BYTES s => (.StringParam s, .BytesT)
  | .vstring .STRING_KIND_C_STRING s => (.StringParam s, .CStringT)

/-- Modelled from the spec: the `chpl::uast::PrimitiveTag` enumeration is
consumed from the resolver (spec section 6) and its definition is not among
the excerpted sources.  The tags named in Param.cpp are listed; `POther n`
stands for every remaining tag (the `default:` arm of the switch in
`isParamOpFoldable`). -/
inductive PrimitiveTag where
  | P_prim_pow | P_prim_mult | P_prim_div | P_prim_mod | P_prim_add
  | P_prim_subtract | P_prim_lsh | P_prim_rsh | P_prim_less
  | P_prim_lessorequal | P_prim_greater | P_prim_greaterorequal
  | P_prim_equal | P_prim_notequal | P_prim_and | P_prim_xor | P_prim_or
  | P_prim_land | P_prim_lor | P_prim_plus | P_prim_minus | P_prim_not
  | P_prim_lnot | P_prim_abs | P_prim_sqrt
  | PRIM_CAST
  | POther (n : Nat)
deriving DecidableEq

/-- Embedding of `Param::isParamOpFoldable` (Param.cpp:60-91). -/
def isParamOpFoldable : PrimitiveTag → Bool
  | .P_prim_pow | .P_prim_mult | .P_prim_div | .P_prim_mod | .P_prim_add
  | .P_prim_subtract | .P_prim_lsh | .P_prim_rsh | .P_prim_less
  | .P_prim_lessorequal | .P_prim_greater | .P_prim_greaterorequal
  | .P_prim_equal | .P_prim_notequal | .P_prim_and | .P_prim_xor
  | .P_prim_or | .P_prim_land | .P_prim_lor | .P_prim_plus | .P_prim_minus
  | .P_prim_not | .P_prim_lnot | .P_prim_abs | .P_prim_sqrt => true
  | _ => false

/-- The `Qualifier` of a `QualifiedType` (framework types, spec section 3). -/
inductive Qualifier where
  | PARAM | VAR | TYPE | UNKNOWN
deriving DecidableEq

/-- A `QualifiedType` triple; the `Type*`/`Param*` members may be null. -/
structure QualifiedType (M : FloatModel) where
  kind : Qualifier
  type : Option Ty
  param : Option (ParamV M)

/-- Result of `Param::fold` as observed by the caller: a returned
`QualifiedType`, a propagated evaluator error, or a fatal
`CHPL_ASSERT(false)` (internal invariant violation). -/
inductive FoldResult (M : FloatModel) where
  | assertFail
  | evalError (msg : String)
  | ok (qt : QualifiedType M)

/-- Whether an integer-kind Immediate holds zero (the divisor test). -/
def isIntZeroImm {M : FloatModel} : Immediate M → Bool
  | .vint _ v => v == 0
  | .vuint _ v => v == 0
  | _ => false

def isIntZeroOptImm {M : FloatModel} : Option (Immediate M) → Bool
  | some bi => isIntZeroImm bi
  | none => false

/-- Modelled from the spec: `fold_constant` (frontend/lib/immediates/num.cpp)
is not among the excerpted sources.  Per spec section 4.3 the evaluator works
at the bit width implied by operand A's Immediate, integer results wrap
modulo their width in two's complement, division/modulo by zero is reported
as an evaluator error (propagated, not silently zeroed), and comparisons
yield boolean.  The integer, unsigned and boolean operator paths are
modelled; combinations the claims do not exercise (floating/complex/string
evaluation, shifts, power, square root) are conservatively mapped to an
evaluator error. -/
def fold_constant {M : FloatModel} (op : PrimitiveTag) (a : Immediate M)
    (b : Option (Immediate M)) : Except String (Immediate M) :=
  if (op = .P_prim_div ∨ op = .P_prim_mod) ∧ isIntZeroOptImm b = true then
    Except.error "Param divide or modulo by zero"
  else
    match a, b with
    | .vint sz va, some (.vint _ vb) =>
      match op with
      | .P_prim_add => Except.ok (.vint sz (iwrap sz.bits (va + vb)))
      | .P_prim_subtract => Except.ok (.vint sz (iwrap sz.bits (va - vb)))
      | .P_prim_mult => Except.ok (.vint sz (iwrap sz.bits (va * vb)))
      | .P_prim_div => Except.ok (.vint sz (iwrap sz.bits (Int.tdiv va vb)))
      | .P_prim_mod => Except.ok (.vint sz (iwrap sz.bits (Int.tmod va vb)))
      | .P_prim_less => Except.ok (.vbool (decide (va < vb)))
      | .P_prim_lessorequal => Except.ok (.vbool (decide (va ≤ vb)))
      | .P_prim_greater => Except.ok (.vbool (decide (vb < va)))
      | .P_prim_greaterorequal => Except.ok (.vbool (decide (vb ≤ va)))
      | .P_prim_equal => Except.ok (.vbool (va == vb))
      | .P_prim_notequal => Except.ok (.vbool (va != vb))
      | _ => Except.error "fold_constant: operation not modelled"
    | .vuint sz va, some (.vuint _ vb) =>
      match op with
      | .P_prim_add => Except.ok (.vuint sz ((va + vb) % 2 ^ sz.bits))
      | .P_prim_subtract => Except.ok (.vuint sz ((va + (2 ^ sz.bits - vb)) % 2 ^ sz.bits))
      | .P_prim_mult => Except.ok (.vuint sz ((va * vb) % 2 ^ sz.bits))
      | .P_prim_div => Except.ok (.vuint sz (va / vb))
      | .P_prim_mod => Except.ok (.vuint sz (va % vb))
      | .P_prim_less => Except.ok (.vbool (decide (va < vb)))
      | .P_prim_lessorequal => Except.ok (.vbool (decide (va ≤ vb)))
      | .P_prim_greater => Except.ok (.vbool (decide (vb < va)))
      | .P_prim_greaterorequal => Except.ok (.vbool (decide (vb ≤ va)))
      | .P_prim_equal => Except.ok (.vbool (va == vb))
      | .P_prim_notequal => Except.ok (.vbool (va != vb))
      | _ => Except.error "fold_constant: operation not modelled"
    | .vbool ba, some (.vbool bb) =>
      match op with
      | .P_prim_land => Except.ok (.vbool (ba && bb))
      | .P_prim_lor => Except.ok (.vbool (ba || bb))
      | .P_prim_equal => Except.ok (.vbool (ba == bb))
      | .P_prim_notequal => Except.ok (.vbool (ba != bb))
      | _ => Except.error "fold_constant: operation not modelled"
    | .vint sz va, none =>
      match op with
      | .P_prim_plus => Except.ok (.vint sz va)
      | .P_prim_minus => Except.ok (.vint sz (iwrap sz.bits (-va)))
      | .P_prim_abs => Except.ok (.vint sz (iwrap sz.bits |va|))
      | _ => Except.error "fold_constant: operation not modelled"
    | _, _ => Except.error "fold_constant: operation not modelled"

/-- The numeric value of a bool/int/uint Immediate (helper for the coercion
model below). -/
def immNumericValue {M : FloatModel} : Immediate M → Int
  | .vbool b => if b then 1 else 0
  | .vint _ v => v
  | .vuint _ v => v
  | _ => 0

/-- Modelled from the spec: `coerce_immediate` (immediates, not among the
excerpted sources).  Per spec section 4.3 it converts the source value to an
Immediate of the destination type's shape, with modular truncation for
narrowing integer casts (spec section 8.5).  Bool/int/uint destinations are
modelled; other destination shapes keep the destination's default value. -/
def coerce_immediate {M : FloatModel} (a b : Immediate M) : Immediate M :=
  match b with
  | .vbool _ => .vbool (immNumericValue a != 0)
  | .vint sz _ => .vint sz (iwrap sz.bits (immNumericValue a))
  | .vuint sz _ => .vuint sz (Int.toNat (immNumericValue a % 2 ^ sz.bits))
  | other => other

/-- Embedding of `handleParamCast` (Param.cpp:404-414): lower operand A to an
Immediate, make the destination-shaped default Immediate from B's type,
coerce, and rebuild a PARAM-qualified (Type, Param) pair. -/
def handleParamCast (M : FloatModel) (a b : QualifiedType M) : FoldResult M :=
  match a.type, b.type with
  | some ta, some tb =>
    match paramToImmediate M a.param ta with
    | none => .assertFail
    | some aImm =>
      match paramToImmediate M none tb with
      | none => .assertFail
      | some bImm =>
        let pair := immediateToParam M (coerce_immediate aImm bImm)
        .ok ⟨.PARAM, some pair.2, some pair.1⟩
  | _, _ => .assertFail

/-- Embedding of `Param::fold` (Param.cpp:416-449): assert that operand A is
typed and valued, lower it to an Immediate, redirect casts to
`handleParamCast`, assert foldability of every other operator, evaluate with
`fold_constant` (unary when operand B is unknown), and rebuild the result
through `immediateToParam` as a PARAM-qualified type. -/
def fold (M : FloatModel) (op : PrimitiveTag) (a b : QualifiedType M) :
    FoldResult M :=
  match a.type, a.param with
  | some ta, some pa =>
    match paramToImmediate M (some pa) ta with
    | none => .assertFail
    | some aImm =>
      if op = .PRIM_CAST then
        handleParamCast M a b
      else if ¬ isParamOpFoldable op then
        .assertFail
      else if b.type.isNone then
        match fold_constant op aImm none with
        | .error e => .evalError e
        | .ok result =>
          let pair := immediateToParam M result
          .ok ⟨.PARAM, some pair.2, some pair.1⟩
      else
        match b.type, b.param with
        | some tb, some pb =>
          match paramToImmediate M (some pb) tb with
          | none => .assertFail
          | some bImm =>
            match fold_constant op aImm (some bImm) with
            | .error e => .evalError e
            | .ok result =>
              let pair := immediateToParam M result
              .ok ⟨.PARAM, some pair.2, some pair.1⟩
        | _, _ => .assertFail
  | _, _ => .assertFail

/-- Modelled from the spec: the query/interning framework behind
`QUERY_BEGIN`/`QUERY_END` (framework/query-impl.h) is not among the excerpted
sources.  Per spec sections 4.4 and 5 each compilation context owns a table
keyed by the constructor arguments; the first request for a value constructs
and records the canonical instance, later requests return it unchanged.
Instances are identified by distinct ids. -/
structure InternState (V : Type) where
  entries : List (V × Nat)
  nextId : Nat

def lookupId {V : Type} [DecidableEq V] : List (V × Nat) → V → Option Nat
  | [], _ => none
  | e :: rest, v => if e.1 = v then some e.2 else lookupId rest v

/-- Model of the macro-generated `PARAM_NODE get##NAME` getters
(Param.cpp:762-773): look the value up in the context's table; on a miss,
construct the new instance and record it. -/
def getParamNode {V : Type} [DecidableEq V] (st : InternState V) (v : V) :
    Nat × InternState V :=
  match lookupId st.entries v with
  | some id => (id, st)
  | none => (st.nextId, ⟨(v, st.nextId) :: st.entries, st.nextId + 1⟩)

/-- The conditions under which lowering a Param through `paramToImmediate`
loses nothing: the Type matches the Param's kind at a width the engine
handles, and the payload is exactly representable at that width (integer
wrapping is the identity; the float narrowing round-trips).  `NoneParam` and
`EnumParam` are excluded: the former lowers to the canonical false bool
Immediate, the latter asserts. -/
def exactAt (M : FloatModel) : ParamV M → Ty → Prop
  | .BoolParam _, .BoolT => True
  | .IntParam v, .IntT w =>
    (w = 8 ∨ w = 16 ∨ w = 32 ∨ w = 64) ∧ iwrap w v = v
  | .UintParam v, .UintT w =>
    (w = 8 ∨ w = 16 ∨ w = 32 ∨ w = 64) ∧ v % 2 ^ w = v
  | .RealParam v, .RealT w => w = 64 ∨ (w = 32 ∧ M.toF64 (M.toF32 v) = v)
  | .RealParam v, .ImagT w => w = 64 ∨ (w = 32 ∧ M.toF64 (M.toF32 v) = v)
  | .ComplexParam re im, .ComplexT w =>
    w = 128 ∨ (w = 64 ∧ M.toF64 (M.toF32 re) = re ∧ M.toF64 (M.toF32 im) = im)
  | .StringParam _, .StringT => True
  | .StringParam _, .BytesT => True
  | .StringParam _, .CStringT => True
  | _, _ => False

/-! ## Theorems -/

/-- C1: the octal parser's character-set loop is written with the bound
`'0' <= str[i] && str[i] <= '8'`, so the character `'8'` — outside the octal
digit set 0-7 — passes the check instead of producing the illegal-character
error naming it.  For `"0o18"` the trailing `'8'` is then silently dropped by
the `%SCNo64` conversion and the call succeeds with 1; for `"0o8"` the
conversion itself fails and the unrelated message `"error converting octal
literal"` is produced.  (A character such as `'9'` that is outside `'0'..'8'`
is rejected with the claimed message, confirming the loop's intent.) -/
theorem octStr2uint64_accepts_eight :
    octStr2uint64 ('0' :: 'o' :: ['1', '8']) = Except.ok 1 ∧
    octStr2uint64 ('0' :: 'o' :: ['8']) =
      Except.error "error converting octal literal" ∧
    octCharCheckSrc '8' = true ∧
    octStr2uint64 ('0' :: 'o' :: ['1', '9']) =
      Except.error (illegalCharMsg '9' "octal") :=
  ⟨rfl, rfl, rfl, rfl⟩

/-- C6: `hexStr2uint64` on `"0x"` followed by sixteen `'F'`s succeeds with
`UINT64_MAX`; with seventeen `'F'`s it reports the integer-literal-overflow
error. -/
theorem hexStr2uint64_boundary :
    hexStr2uint64 ("0xFFFFFFFFFFFFFFFF".toList) =
      Except.ok 18446744073709551615 ∧
    hexStr2uint64 ("0xFFFFFFFFFFFFFFFFF".toList) =
      Except.error (overflowMsg ("0xFFFFFFFFFFFFFFFFF".toList)) :=
  ⟨rfl, rfl⟩

/-- C5 counterexample: the claim fails at `NoneParam`.  A `NoneParam` paired
with the nothing type lowers to the canonical false bool Immediate
(Param.cpp:217-223), and `immediateToParam` reconstructs a `(BoolParam false,
bool type)` pair — which neither `completeMatch`-equals `NoneParam` nor
carries the original type. -/
theorem noneParam_roundtrip_fails :
    Option.map (immediateToParam natFloatModel)
        (paramToImmediate natFloatModel (some .NoneParam) .NothingT) =
      some (.BoolParam false, .BoolT) ∧
    completeMatch (M := natFloatModel) (.BoolParam false) .NoneParam = false ∧
    Ty.BoolT ≠ Ty.NothingT :=
  ⟨rfl, rfl, by decide⟩

/-- C2 counterexample: a binary literal that both exceeds the 64-bit length
bound and contains the non-binary character `'2'` reports the overflow
error, not the illegal-character error: the length check at Param.cpp:508
runs before the digit loop at Param.cpp:515. -/
theorem binStr2uint64_overflow_masks_illegal_char :
    binStr2uint64 ('0' :: 'b' :: (List.replicate 65 '1' ++ ['2'])) =
      Except.error (overflowMsg ('0' :: 'b' :: (List.replicate 65 '1' ++ ['2']))) ∧
    '2' ∈ ('0' :: 'b' :: (List.replicate 65 '1' ++ ['2'])) ∧
    overflowMsg ('0' :: 'b' :: (List.replicate 65 '1' ++ ['2'])) ≠
      illegalCharMsg '2' "binary" :=
  ⟨rfl, by decide, by decide⟩

/-- C9: the interning getter is idempotent and side-effect-free on repeated
calls: calling `getParamNode` again with the same value on the state produced
by a first call returns the same instance id and leaves the state unchanged
(the second call is a cache hit). -/
theorem getParamNode_idempotent {V : Type} [DecidableEq V]
    (st : InternState V) (v : V) :
    getParamNode (getParamNode st v).2 v = getParamNode st v := by
  unfold getParamNode
  cases h : lookupId st.entries v with
  | some id => simp [h]
  | none => simp [h, lookupId]

theorem getParamNode_idempotent_witness :
    getParamNode (getParamNode (⟨[], 0⟩ : InternState Nat) 5).2 5 =
      getParamNode (⟨[], 0⟩ : InternState Nat) 5 :=
  getParamNode_idempotent ⟨[], 0⟩ 5

/-- C4: folding ADD over two int8-typed Params holding 100 wraps to the
int8-typed Param -56: the evaluator works at operand A's Immediate width
(the operands are narrowed to `int8_t` by `paramToImmediate`) and wraps
modulo `2 ^ 8` in two's complement, with no trap and no widening. -/
theorem fold_add_int8_wraps (M : FloatModel) :
    fold M .P_prim_add ⟨.PARAM, some (.IntT 8), some (.IntParam 100)⟩
        ⟨.PARAM, some (.IntT 8), some (.IntParam 100)⟩ =
      .ok ⟨.PARAM, some (.IntT 8), some (.IntParam (-56))⟩ :=
  rfl

/-- Wrapping zero to any positive width gives zero. -/
theorem iwrap_zero (w : Nat) (hw : 0 < w) : iwrap w 0 = 0 := by
  unfold iwrap
  have h1 : (0 : Int) ≤ 2 ^ (w - 1) := by positivity
  have h2 : (2 : Int) ^ (w - 1) < 2 ^ w := by
    apply pow_lt_pow_right₀ (by norm_num)
    omega
  rw [zero_add, Int.emod_eq_of_lt h1 h2]
  ring

/-- C3: folding a division or a modulo whose second operand is an
integer-typed Param holding zero reports the evaluator's
division/modulo-by-zero error, which `fold` propagates to the caller; no
zero-valued PARAM result is produced. -/
theorem fold_div_mod_by_zero_errors (M : FloatModel) (op : PrimitiveTag)
    (hop : op = .P_prim_div ∨ op = .P_prim_mod)
    (w : Nat) (hw : w = 8 ∨ w = 16 ∨ w = 32 ∨ w = 64) (va : Int) :
    fold M op ⟨.PARAM, some (.IntT w), some (.IntParam va)⟩
        ⟨.PARAM, some (.IntT w), some (.IntParam 0)⟩ =
      .evalError "Param divide or modulo by zero" := by
  rcases hw with rfl | rfl | rfl | rfl <;>
    rcases hop with rfl | rfl <;>
      simp [fold, paramToImmediate, ParamV.tag, isParamOpFoldable,
        fold_constant, isIntZeroOptImm, isIntZeroImm, iwrap_zero]

theorem fold_div_mod_by_zero_errors_witness :
    fold natFloatModel .P_prim_div
        ⟨.PARAM, some (.IntT 32), some (.IntParam 7)⟩
        ⟨.PARAM, some (.IntT 32), some (.IntParam 0)⟩ =
      .evalError "Param divide or modulo by zero" :=
  fold_div_mod_by_zero_errors natFloatModel .P_prim_div (Or.inl rfl) 32
    (Or.inr (Or.inr (Or.inl rfl))) 7

/-- C2 (amended): in all three prefixed-radix parsers the magnitude/length
check runs before character-set validation: any literal whose zero-stripped
digit region exceeds the radix's length bound reports the overflow error —
even when it also contains a character outside the radix's digit set. -/
theorem magnitude_check_precedes_digit_check :
    (∀ s : List Char,
      s.getD 0 ' ' = '0' → (s.getD 1 ' ' = 'b' ∨ s.getD 1 ' ' = 'B') →
      containsZeroBytes s = false →
      64 < (stripZeros (s.drop 2)).length →
      binStr2uint64 s = Except.error (overflowMsg s)) ∧
    (∀ s : List Char,
      s.getD 0 ' ' = '0' → (s.getD 1 ' ' = 'o' ∨ s.getD 1 ' ' = 'O') →
      containsZeroBytes s = false →
      22 < (stripZeros (s.drop 2)).length →
      octStr2uint64 s = Except.error (overflowMsg s)) ∧
    (∀ s : List Char,
      s.getD 0 ' ' = '0' → (s.getD 1 ' ' = 'x' ∨ s.getD 1 ' ' = 'X') →
      containsZeroBytes s = false →
      16 < (stripZeros (s.drop 2)).length →
      hexStr2uint64 s = Except.error (overflowMsg s)) := by
  refine ⟨?_, ?_, ?_⟩ <;>
    · intro s h0 h1 hz hlen
      simp only [List.getD, List.get?_eq_getElem?] at h0 h1
      rcases h1 with h1 | h1 <;>
        simp [binStr2uint64, octStr2uint64, hexStr2uint64, h0, h1, hz, hlen]

theorem magnitude_check_precedes_digit_check_witness :
    binStr2uint64 ('0' :: 'b' :: (List.replicate 65 '1' ++ ['2'])) =
      Except.error (overflowMsg ('0' :: 'b' :: (List.replicate 65 '1' ++ ['2']))) ∧
    octStr2uint64 ('0' :: 'o' :: List.replicate 23 '9') =
      Except.error (overflowMsg ('0' :: 'o' :: List.replicate 23 '9')) ∧
    hexStr2uint64 ('0' :: 'x' :: List.replicate 17 'G') =
      Except.error (overflowMsg ('0' :: 'x' :: List.replicate 17 'G')) :=
  ⟨magnitude_check_precedes_digit_check.1 _ rfl (Or.inl rfl) (by decide) (by decide),
   magnitude_check_precedes_digit_check.2.1 _ rfl (Or.inl rfl) (by decide) (by decide),
   magnitude_check_precedes_digit_check.2.2 _ rfl (Or.inl rfl) (by decide) (by decide)⟩

/-- C7: `isParamOpFoldable` is true exactly on the fixed allow-list of 25
operators and false on every other tag; in `fold` a CAST is redirected to the
cast path before the foldability check (so the check never applies to it),
and any other operator outside the allow-list makes `fold` hit the fatal
assertion, never a recoverable result. -/
theorem isParamOpFoldable_allowlist :
    (∀ op : PrimitiveTag, isParamOpFoldable op = true ↔
      (op = .P_prim_pow ∨ op = .P_prim_mult ∨ op = .P_prim_div ∨
       op = .P_prim_mod ∨ op = .P_prim_add ∨ op = .P_prim_subtract ∨
       op = .P_prim_lsh ∨ op = .P_prim_rsh ∨ op = .P_prim_less ∨
       op = .P_prim_lessorequal ∨ op = .P_prim_greater ∨
       op = .P_prim_greaterorequal ∨ op = .P_prim_equal ∨
       op = .P_prim_notequal ∨ op = .P_prim_and ∨ op = .P_prim_xor ∨
       op = .P_prim_or ∨ op = .P_prim_land ∨ op = .P_prim_lor ∨
       op = .P_prim_plus ∨ op = .P_prim_minus ∨ op = .P_prim_not ∨
       op = .P_prim_lnot ∨ op = .P_prim_abs ∨ op = .P_prim_sqrt)) ∧
    isParamOpFoldable .PRIM_CAST = false ∧
    (∀ n : Nat, isParamOpFoldable (.POther n) = false) ∧
    (∀ (M : FloatModel) (a b : QualifiedType M) (ta : Ty) (pa : ParamV M)
        (aImm : Immediate M),
      a.type = some ta → a.param = some pa →
      paramToImmediate M (some pa) ta = some aImm →
      fold M .PRIM_CAST a b = handleParamCast M a b) ∧
    (∀ (M : FloatModel) (n : Nat) (a b : QualifiedType M),
      fold M (.POther n) a b = .assertFail) := by
  refine ⟨?_, rfl, fun n => rfl, ?_, ?_⟩
  · intro op
    cases op <;> simp [isParamOpFoldable]
  · intro M a b ta pa aImm ht hp hImm
    unfold fold
    rw [ht, hp]
    simp [hImm]
  · intro M n a b
    unfold fold
    rcases ht : a.type with _ | ta <;> rcases hp : a.param with _ | pa
    · rfl
    · rfl
    · rfl
    rcases hImm : paramToImmediate M (some pa) ta with _ | aImm <;>
      simp [hImm, isParamOpFoldable]

theorem isParamOpFoldable_allowlist_witness :
    isParamOpFoldable .P_prim_pow = true ∧
    isParamOpFoldable .PRIM_CAST = false ∧
    isParamOpFoldable (.POther 0) = false ∧
    fold natFloatModel .PRIM_CAST
        ⟨.PARAM, some (.IntT 64), some (.IntParam 300)⟩
        ⟨.PARAM, some (.IntT 8), none⟩ =
      handleParamCast natFloatModel
        ⟨.PARAM, some (.IntT 64), some (.IntParam 300)⟩
        ⟨.PARAM, some (.IntT 8), none⟩ ∧
    fold natFloatModel (.POther 0)
        ⟨.PARAM, some (.IntT 64), some (.IntParam 300)⟩
        ⟨.PARAM, some (.IntT 8), none⟩ = .assertFail :=
  ⟨(isParamOpFoldable_allowlist.1 _).mpr (Or.inl rfl),
   isParamOpFoldable_allowlist.2.1,
   isParamOpFoldable_allowlist.2.2.1 0,
   isParamOpFoldable_allowlist.2.2.2.1 natFloatModel _ _ (.IntT 64)
     (.IntParam 300) _ rfl rfl rfl,
   isParamOpFoldable_allowlist.2.2.2.2 natFloatModel 0 _ _⟩

/-- C10: every `QualifiedType` that `fold` returns — through the general
arithmetic path and through the `handleParamCast` path alike — carries the
PARAM qualifier together with the non-null (Type, Param) pair produced by
`immediateToParam`; every non-asserting, non-erroring path yields a fully
typed and valued compile-time constant. -/
theorem fold_ok_param_qualified (M : FloatModel) (op : PrimitiveTag)
    (a b : QualifiedType M) (qt : QualifiedType M)
    (h : fold M op a b = .ok qt) :
    qt.kind = .PARAM ∧
    ∃ imm : Immediate M,
      qt = ⟨.PARAM, some (immediateToParam M imm).2,
            some (immediateToParam M imm).1⟩ := by
  unfold fold handleParamCast at h
  repeat' split at h
  all_goals (try simp only [] at h)
  all_goals first
    | exact FoldResult.noConfusion h
    | (injection h with h2; subst h2; exact ⟨rfl, _, rfl⟩)

theorem fold_ok_param_qualified_witness :
    (⟨.PARAM, some (.IntT 8), some (.IntParam (-56))⟩ :
        QualifiedType natFloatModel).kind = .PARAM ∧
    ∃ imm : Immediate natFloatModel,
      (⟨.PARAM, some (.IntT 8), some (.IntParam (-56))⟩ :
          QualifiedType natFloatModel) =
        ⟨.PARAM, some (immediateToParam natFloatModel imm).2,
          some (immediateToParam natFloatModel imm).1⟩ :=
  fold_ok_param_qualified natFloatModel .P_prim_add
    ⟨.PARAM, some (.IntT 8), some (.IntParam 100)⟩
    ⟨.PARAM, some (.IntT 8), some (.IntParam 100)⟩
    ⟨.PARAM, some (.IntT 8), some (.IntParam (-56))⟩ rfl

/-- C5 (amended): for every Param kind other than `NoneParam`, at a Type
matching the Param's kind at a handled width and with the payload exactly
representable at that width, `immediateToParam` inverts `paramToImmediate`:
the reconstructed Param equals (hence `completeMatch`-equals) the original
and the reconstructed Type equals the original. -/
theorem paramImmediate_roundtrip (M : FloatModel) (p : ParamV M) (t : Ty)
    (h : exactAt M p t) :
    Option.map (immediateToParam M) (paramToImmediate M (some p) t) =
      some (p, t) ∧
    completeMatch p p = true := by
  constructor
  · cases p <;> cases t <;> (try (simp only [exactAt] at h <;> exact h.elim))
    case BoolParam.BoolT b =>
      simp [paramToImmediate, ParamV.tag, immediateToParam]
    case StringParam.StringT s =>
      simp [paramToImmediate, ParamV.tag, immediateToParam]
    case StringParam.BytesT s =>
      simp [paramToImmediate, ParamV.tag, immediateToParam]
    case StringParam.CStringT s =>
      simp [paramToImmediate, ParamV.tag, immediateToParam]
    case IntParam.IntT v w =>
      simp only [exactAt] at h
      obtain ⟨hw, hv⟩ := h
      rcases hw with rfl | rfl | rfl | rfl <;>
        simp [paramToImmediate, ParamV.tag, immediateToParam, IntSize.bits, hv]
    case UintParam.UintT v w =>
      simp only [exactAt] at h
      obtain ⟨hw, hv⟩ := h
      rcases hw with rfl | rfl | rfl | rfl <;>
        simp [paramToImmediate, ParamV.tag, immediateToParam, IntSize.bits, hv] <;>
        omega
    case RealParam.RealT v w =>
      simp only [exactAt] at h
      rcases h with rfl | ⟨rfl, hv⟩
      · simp [paramToImmediate, ParamV.tag, immediateToParam]
      · simp [paramToImmediate, ParamV.tag, immediateToParam, hv]
    case RealParam.ImagT v w =>
      simp only [exactAt] at h
      rcases h with rfl | ⟨rfl, hv⟩
      · simp [paramToImmediate, ParamV.tag, immediateToParam]
      · simp [paramToImmediate, ParamV.tag, immediateToParam, hv]
    case ComplexParam.ComplexT re im w =>
      simp only [exactAt] at h
      rcases h with rfl | ⟨rfl, hre, him⟩
      · simp [paramToImmediate, ParamV.tag, immediateToParam]
      · simp [paramToImmediate, ParamV.tag, immediateToParam, hre, him]
  · cases p <;> simp [completeMatch, M.beq64_refl]

theorem paramImmediate_roundtrip_witness :
    Option.map (immediateToParam natFloatModel)
        (paramToImmediate natFloatModel (some (.IntParam 5)) (.IntT 64)) =
      some (.IntParam 5, .IntT 64) ∧
    completeMatch (M := natFloatModel) (.IntParam 5) (.IntParam 5) = true :=
  paramImmediate_roundtrip natFloatModel (.IntParam 5) (.IntT 64)
    (by unfold exactAt; exact ⟨by norm_num, by rfl⟩)

/-! ### Helper lemmas for the decimal round-trip (claim C8) -/

theorem decValue_go (ds : List Char) (a : Nat) :
    ds.foldl (fun a c => a * 10 + decCharVal c) a =
      a * 10 ^ ds.length + Nat.ofDigits 10 ((ds.map decCharVal).reverse) := by
  induction ds generalizing a with
  | nil => simp
  | cons c rest ih =>
    rw [List.foldl_cons, ih]
    simp only [List.map_cons, List.reverse_cons, Nat.ofDigits_append,
      Nat.ofDigits_cons, Nat.ofDigits_nil, List.length_cons, List.length_reverse,
      List.length_map, pow_succ]
    ring

theorem decValue_eq (ds : List Char) :
    decValue ds = Nat.ofDigits 10 ((ds.map decCharVal).reverse) := by
  have h := decValue_go ds 0
  simpa [decValue] using h

theorem digitsLEAux_eq_digits (fuel n : Nat) (h : n ≤ fuel) :
    digitsLEAux fuel n = Nat.digits 10 n := by
  induction fuel generalizing n with
  | zero =>
    have hn : n = 0 := by omega
    subst hn
    simp [digitsLEAux]
  | succ f ih =>
    by_cases hn : n = 0
    · subst hn
      simp [digitsLEAux]
    · rw [digitsLEAux, if_neg hn,
        ih (n / 10) (by
          have : n / 10 < n := Nat.div_lt_self (Nat.pos_of_ne_zero hn) (by norm_num)
          omega),
        ← Nat.digits_def' (by norm_num : (1 : Nat) < 10) (Nat.pos_of_ne_zero hn)]

theorem digitsLE_eq_digits (n : Nat) : digitsLE n = Nat.digits 10 n :=
  digitsLEAux_eq_digits n n le_rfl

theorem toNat_digitCh (d : Nat) (h : d < 10) : (digitCh d).toNat = 48 + d := by
  have hv : 48 + d < 55296 := by omega
  simp [digitCh, Char.ofNat, Char.ofNatAux, Char.toNat, Nat.isValidChar, hv,
    UInt32.toNat]

theorem decCharVal_digitCh (d : Nat) (h : d < 10) : decCharVal (digitCh d) = d := by
  unfold decCharVal
  rw [toNat_digitCh d h]
  omega

theorem isDecDigitCh_toNat {c : Char} (h : isDecDigitCh c = true) :
    48 ≤ c.toNat ∧ c.toNat ≤ 57 := by
  have h' : '0' ≤ c ∧ c ≤ '9' := by simpa [isDecDigitCh] using h
  exact ⟨h'.1, h'.2⟩

theorem decCharVal_lt_ten {c : Char} (h : isDecDigitCh c = true) :
    decCharVal c < 10 := by
  have h' := isDecDigitCh_toNat h
  unfold decCharVal
  omega

theorem digitCh_decCharVal (c : Char) (h : isDecDigitCh c = true) :
    digitCh (decCharVal c) = c := by
  have h' := isDecDigitCh_toNat h
  unfold digitCh decCharVal
  have e : 48 + (c.toNat - 48) = c.toNat := by omega
  rw [e, Char.ofNat_toNat]

theorem decCharVal_ne_zero {c : Char} (hd : isDecDigitCh c = true)
    (h0 : c ≠ '0') : decCharVal c ≠ 0 := by
  have h' := isDecDigitCh_toNat hd
  intro he
  apply h0
  have e : c.toNat = 48 := by
    unfold decCharVal at he
    omega
  rw [← Char.ofNat_toNat c, e]

theorem decValue_uintRepr (n : Nat) : decValue (uintRepr n) = n := by
  unfold uintRepr
  by_cases hn : n = 0
  · subst hn
    rfl
  · rw [if_neg hn, digitsLE_eq_digits, decValue_eq, List.map_map]
    have hmap : (Nat.digits 10 n).reverse.map (decCharVal ∘ digitCh) =
        (Nat.digits 10 n).reverse := by
      calc (Nat.digits 10 n).reverse.map (decCharVal ∘ digitCh)
          = (Nat.digits 10 n).reverse.map id :=
            List.map_congr_left (fun d hd => decCharVal_digitCh d
              (Nat.digits_lt_base (by norm_num) (List.mem_reverse.mp hd)))
        _ = (Nat.digits 10 n).reverse := List.map_id _
    rw [hmap, List.reverse_reverse, Nat.ofDigits_digits]

theorem uintRepr_decValue (ds : List Char)
    (hdig : ∀ c ∈ ds, isDecDigitCh c = true)
    (hcanon : ds = ['0'] ∨ (ds ≠ [] ∧ ds.headD ' ' ≠ '0')) :
    uintRepr (decValue ds) = ds := by
  rcases hcanon with rfl | ⟨hne, hhd⟩
  · rfl
  · obtain ⟨c, rest, rfl⟩ : ∃ c rest, ds = c :: rest := by
      cases ds with
      | nil => exact absurd rfl hne
      | cons c rest => exact ⟨c, rest, rfl⟩
    rw [decValue_eq]
    have hlt : ∀ l ∈ ((c :: rest).map decCharVal).reverse, l < 10 := by
      intro l hl
      rw [List.mem_reverse, List.mem_map] at hl
      obtain ⟨x, hx, rfl⟩ := hl
      exact decCharVal_lt_ten (hdig x hx)
    have hlast : ∀ h : ((c :: rest).map decCharVal).reverse ≠ [],
        (((c :: rest).map decCharVal).reverse).getLast h ≠ 0 := by
      intro h
      have e : ((c :: rest).map decCharVal).reverse =
          (rest.map decCharVal).reverse ++ [decCharVal c] := by
        simp
      have h1 : (((c :: rest).map decCharVal).reverse).getLast? =
          some (decCharVal c) := by
        rw [e]
        simp
      have h2 := List.getLast?_eq_getLast _ h
      rw [h1] at h2
      rw [← Option.some_inj.mp h2]
      exact decCharVal_ne_zero (hdig c (by simp)) (by simpa using hhd)
    have hdig10 := Nat.digits_ofDigits 10 (by norm_num)
      (((c :: rest).map decCharVal).reverse) hlt hlast
    have hv0 : Nat.ofDigits 10 (((c :: rest).map decCharVal).reverse) ≠ 0 := by
      intro h0
      rw [h0] at hdig10
      simp at hdig10
    unfold uintRepr
    rw [if_neg hv0, digitsLE_eq_digits, hdig10, List.reverse_reverse,
      List.map_map]
    have : (c :: rest).map (digitCh ∘ decCharVal) = (c :: rest).map id := by
      apply List.map_congr_left
      intro x hx
      exact digitCh_decCharVal x (hdig x hx)
    rw [this, List.map_id]

theorem stripZeros_ne_nil (ds : List Char) (h : ds ≠ []) : stripZeros ds ≠ [] := by
  induction ds with
  | nil => exact absurd rfl h
  | cons c rest ih =>
    rw [stripZeros]
    split
    · next hc => exact ih hc.2
    · simp

theorem stripZeros_mem (ds : List Char) : ∀ c ∈ stripZeros ds, c ∈ ds := by
  induction ds with
  | nil => simp [stripZeros]
  | cons c rest ih =>
    rw [stripZeros]
    split
    · intro x hx
      exact List.mem_cons_of_mem c (ih x hx)
    · intro x hx
      exact hx

theorem stripZeros_canonical (ds : List Char) (h : ds ≠ []) :
    stripZeros ds = ['0'] ∨
      (stripZeros ds ≠ [] ∧ (stripZeros ds).headD ' ' ≠ '0') := by
  induction ds with
  | nil => exact absurd rfl h
  | cons c rest ih =>
    rw [stripZeros]
    split
    · next hc => exact ih hc.2
    · next hc =>
      by_cases hc0 : c = '0'
      · left
        have hr : rest = [] := by
          by_contra hr
          exact hc ⟨hc0, hr⟩
        rw [hc0, hr]
      · right
        exact ⟨by simp, by simpa using hc0⟩

theorem decValue_stripZeros (ds : List Char) :
    decValue (stripZeros ds) = decValue ds := by
  induction ds with
  | nil => rfl
  | cons c rest ih =>
    rw [stripZeros]
    split
    · next hc =>
      rw [ih]
      have : decCharVal '0' = 0 := rfl
      simp [decValue, hc.1, this]
    · rfl

theorem stripSign_replicate (k : Nat) (ds : List Char) (hne : ds ≠ [])
    (hhd : ds.headD ' ' ≠ '-') :
    stripSign (List.replicate k '-' ++ ds) = (ds, decide (k % 2 = 1)) := by
  induction k with
  | zero =>
    cases ds with
    | nil => exact absurd rfl hne
    | cons c rest =>
      have hc : c ≠ '-' := by simpa using hhd
      rw [List.replicate_zero, List.nil_append, stripSign,
        if_neg (fun hand => hc hand.1)]
      simp
  | succ k ih =>
    rw [List.replicate_succ, List.cons_append, stripSign,
      if_pos ⟨rfl, by simp [hne]⟩, ih]
    by_cases h2 : k % 2 = 1
    · have h3 : (k + 1) % 2 = 0 := by omega
      simp [h2, h3]
    · have h3 : (k + 1) % 2 = 1 := by omega
      have h4 : k % 2 = 0 := by omega
      simp [h2, h3, h4]

theorem containsZeroBytes_minus_digits (k : Nat) (ds : List Char)
    (hdig : ∀ c ∈ ds, isDecDigitCh c = true) :
    containsZeroBytes (List.replicate k '-' ++ ds) = false := by
  simp only [containsZeroBytes, List.any_eq_false]
  intro c hc
  rcases List.mem_append.mp hc with hr | hd
  · rw [List.eq_of_mem_replicate hr]
    simp
  · have h' := isDecDigitCh_toNat (hdig c hd)
    simp
    omega

/-- C8: `decStr2int64` strips every leading `'-'`, toggling the sign once per
`'-'`, strips leading zeros, applies the decimal text round-trip overflow
check to the remaining digits (under glibc's saturating `%SCNd64`
conversion the check accepts exactly the magnitudes up to `INT64_MAX`), and
returns the parsed magnitude negated iff an odd number of `'-'` signs was
stripped. -/
theorem decStr2int64_toggles_signs (k : Nat) (ds : List Char) (hne : ds ≠ [])
    (hdig : ∀ c ∈ ds, isDecDigitCh c = true) :
    decStr2int64 (List.replicate k '-' ++ ds) =
      if decValue ds ≤ 2 ^ 63 - 1 then
        Except.ok (if k % 2 = 1 then -(decValue ds : Int) else (decValue ds : Int))
      else
        Except.error (overflowMsg (List.replicate k '-' ++ ds)) := by
  have hzb := containsZeroBytes_minus_digits k ds hdig
  have hhd' : ds.headD ' ' ≠ '-' := by
    cases ds with
    | nil => exact absurd rfl hne
    | cons c rest =>
      have hb := isDecDigitCh_toNat (hdig c (by simp))
      simp only [List.headD_cons]
      intro hEq
      rw [hEq] at hb
      have h45 : ('-').toNat = 45 := rfl
      omega
  have hfirst : ((List.replicate k '-' ++ ds).getD 0 ' ').toNat ≠ 0 := by
    cases k with
    | zero =>
      cases ds with
      | nil => exact absurd rfl hne
      | cons c rest =>
        have hb := isDecDigitCh_toNat (hdig c (by simp))
        simp only [List.replicate_zero, List.nil_append, List.getD_cons_zero]
        omega
    | succ k' =>
      rw [List.replicate_succ, List.cons_append, List.getD_cons_zero]
      simp
  have hmem : ∀ c ∈ stripZeros ds, isDecDigitCh c = true :=
    fun c hc => hdig c (stripZeros_mem ds c hc)
  have hfind : (stripZeros ds).find? (fun c => ¬ isDecDigitCh c) = none := by
    rw [List.find?_eq_none]
    intro x hx
    simp [hmem x hx]
  have hcanon : stripZeros ds = ['0'] ∨
      (stripZeros ds ≠ [] ∧ (stripZeros ds).headD ' ' ≠ '0') :=
    stripZeros_canonical ds hne
  have hrepr : uintRepr (decValue ds) = stripZeros ds := by
    rw [← decValue_stripZeros ds]
    exact uintRepr_decValue (stripZeros ds) hmem hcanon
  unfold decStr2int64
  rw [if_neg (by
    intro hor
    rcases hor with h0 | h1
    · exact hfirst h0
    · rw [hzb] at h1
      exact Bool.false_ne_true h1)]
  rw [stripSign_replicate k ds hne hhd']
  simp only [hfind, decValue_stripZeros]
  by_cases hle : decValue ds ≤ 2 ^ 63 - 1
  · have hval : sscanfD64 (decValue ds) = (decValue ds : Int) := by
      unfold sscanfD64
      apply min_eq_left
      omega
    have hmod : ((decValue ds : Int)) % 2 ^ 64 = (decValue ds : Int) :=
      Int.emod_eq_of_lt (by positivity) (by omega)
    have htn : ((decValue ds : Int)).toNat = decValue ds := Int.toNat_natCast _
    rw [hval, hmod]
    rw [if_neg (by
      rw [htn, hrepr]
      exact fun hcon => hcon rfl)]
    rw [if_pos hle]
    by_cases hk : k % 2 = 1 <;> simp [hk]
  · have hval : sscanfD64 (decValue ds) = 2 ^ 63 - 1 := by
      unfold sscanfD64
      apply min_eq_right
      omega
    have hmod : ((2 : Int) ^ 63 - 1) % 2 ^ 64 = 2 ^ 63 - 1 :=
      Int.emod_eq_of_lt (by norm_num) (by norm_num)
    have htn : ((2 : Int) ^ 63 - 1).toNat = 2 ^ 63 - 1 := by
      norm_num
      rfl
    rw [hval, hmod, if_pos (by
      rw [htn]
      intro hEq
      have hv := congrArg decValue hEq
      rw [decValue_uintRepr, decValue_stripZeros] at hv
      omega)]
    rw [if_neg hle]

theorem decStr2int64_toggles_signs_witness :
    decStr2int64 ('-' :: '-' :: ['5']) = Except.ok 5 ∧
    decStr2int64 ('-' :: ['5']) = Except.ok (-5) := by
  have h2 := decStr2int64_toggles_signs 2 ['5'] (by simp) (by decide)
  have h1 := decStr2int64_toggles_signs 1 ['5'] (by simp) (by decide)
  have e5 : decValue ['5'] = 5 := rfl
  rw [e5] at h1 h2
  norm_num at h1 h2
  exact ⟨h2, h1⟩

end Chapel
